import Mathlib

/-!
Verification development for the Jikan anime ETL pipeline
(`dag/etl.py`: class `JikanDataExtractor` with `extract_all_anime`,
`preprocess_anime_data`, `load_to_postgres`).

The source is shallowly embedded:
semi-structured Python/JSON values become the inductive `PyVal`;
the pandas DataFrame built from the list of raw API entries becomes
`DataFrame` (a column list plus association-list rows, a missing cell
playing pandas NaN); the paginated HTTP extraction loop becomes the
structural recursion `extractGo` over an abstract per-page fetch oracle;
the PostgreSQL loader becomes a pure model of the upsert batch together
with an explicit model of the Python `try/except/finally` resource
handling, with a failure-injection parameter selecting which database
step (if any) raises.
-/

/-- Semi-structured Python/JSON values as they occur in the pipeline:
`none` doubles for Python `None` and a missing/NaN cell, `date` is the
result of `pd.to_datetime(...).date()`. -/
inductive PyVal where
  | none
  | str (s : String)
  | int (n : Int)
  | date (y m d : Nat)
  | list (xs : List PyVal)
  | dict (fields : List (String × PyVal))

/-- Python truthiness for the values above (`if aired.get('from')`,
`", ".join(x) if x else ""`). -/
def truthy : PyVal → Bool
  | .none => false
  | .str s => decide (s ≠ "")
  | .int n => decide (n ≠ 0)
  | .date _ _ _ => true
  | .list xs => !xs.isEmpty
  | .dict fs => !fs.isEmpty

/-- Leap-year rule used by the calendar check of the date parser. -/
def isLeap (y : Nat) : Bool :=
  (y % 4 == 0 && y % 100 != 0) || y % 400 == 0

/-- Days in a month, for validating parsed calendar dates. -/
def daysInMonth (y m : Nat) : Nat :=
  if m = 2 then (if isLeap y then 29 else 28)
  else if m = 4 ∨ m = 6 ∨ m = 9 ∨ m = 11 then 30
  else 31

/-- Split a character list on the dash separator, the shape check of the
ISO date format. -/
def splitDash : List Char → List (List Char)
  | [] => [[]]
  | c :: cs =>
    let r := splitDash cs
    if c = '-' then [] :: r
    else
      match r with
      | [] => [[c]]
      | g :: gs => (c :: g) :: gs

/-- Numeric value of a nonempty digit string, `none` otherwise. -/
def digitsToNat (cs : List Char) : Option Nat :=
  if cs.isEmpty ∨ ¬ cs.all Char.isDigit then Option.none
  else some (cs.foldl (fun n c => n * 10 + (c.toNat - 48)) 0)

/-- Model of `pd.to_datetime(s).date()` on an ISO `YYYY-MM-DD` string:
the components must be numeric and form a valid calendar date, otherwise
parsing fails (the source turns the failure into `ValueError`, caught by
`process_dates`). -/
def parseIso (s : String) : Option (Nat × Nat × Nat) :=
  match splitDash s.toList with
  | [ys, ms, ds] => do
    let y ← digitsToNat ys
    let m ← digitsToNat ms
    let d ← digitsToNat ds
    if ys.length = 4 ∧ 1 ≤ m ∧ m ≤ 12 ∧ 1 ≤ d ∧ d ≤ daysInMonth y m then
      some (y, m, d)
    else
      Option.none
  | _ => Option.none

/-- Model of `pd.to_datetime(v).date()` on an arbitrary value: only
date strings parse; any other argument raises `ValueError`/`TypeError`
in the source, which `process_dates` catches, so it is modelled as a
parse failure. -/
def parseDate (v : PyVal) : Option (Nat × Nat × Nat) :=
  match v with
  | .str s => parseIso s
  | _ => Option.none

/-- Model of `aired.get(key)`: association-list lookup defaulting to
Python `None`. Also reused for a DataFrame cell read, where the default
plays the NaN of a missing column value. -/
def cell (fs : List (String × PyVal)) (k : String) : PyVal :=
  (fs.lookup k).getD .none

/-- The guarded parse `try: pd.to_datetime(v).date() except (ValueError,
TypeError): fallback` of `process_dates`: the parsed date when `v`
parses, the fallback value `a` when it does not. -/
def dateOrElse (v : PyVal) (a : PyVal) : PyVal :=
  match parseDate v with
  | some (y, m, d) => PyVal.date y m d
  | Option.none => a

/-- The nested helper `process_dates(aired)` of
`JikanDataExtractor.preprocess_anime_data` (etl.py lines 108-124):
a non-dict date range yields `(None, None)`; `start_date` parses `from`
when truthy, swallowing parse failures to `None`; `end_date` parses `to`
when truthy, and is the literal string `"Ongoing"` when `to` is falsy or
unparseable. -/
def process_dates (aired : PyVal) : PyVal × PyVal :=
  match aired with
  | .dict fs =>
    let fromv := cell fs "from"
    let start_date :=
      if truthy fromv then dateOrElse fromv PyVal.none else PyVal.none
    let tov := cell fs "to"
    let end_date :=
      if truthy tov then dateOrElse tov (PyVal.str "Ongoing")
      else PyVal.str "Ongoing"
    (start_date, end_date)
  | _ => (PyVal.none, PyVal.none)

theorem parseDate_of_not_truthy {v : PyVal} (h : truthy v = false) :
    parseDate v = Option.none := by
  cases v with
  | str s =>
    have hs : s = "" := by
      by_contra hne
      simp [truthy, hne] at h
    subst hs
    rfl
  | none => rfl
  | int n => rfl
  | date y m d => rfl
  | list xs => rfl
  | dict fs => rfl

example : parseIso "2020-01-01" = some (2020, 1, 1) := by decide
example : parseIso "2020-06-01" = some (2020, 6, 1) := by decide
example : parseIso "" = Option.none := by decide
example : parseIso "hello" = Option.none := by decide
example : process_dates (PyVal.dict [("from", PyVal.str "2020-01-01"), ("to", PyVal.str "2020-06-01")])
    = (PyVal.date 2020 1 1, PyVal.date 2020 6 1) := rfl
example : process_dates (PyVal.dict [("from", PyVal.str "2020-01-01")])
    = (PyVal.date 2020 1 1, PyVal.str "Ongoing") := rfl
example : process_dates (PyVal.str "nope") = (PyVal.none, PyVal.none) := rfl

/-!
Extraction model (`JikanDataExtractor.extract_all_anime`, etl.py lines
28-75). The HTTP interaction is abstracted into a per-page fetch oracle:
`FetchResult.ok data` is a 200 response whose JSON body carries a `data`
list; `noDataKey` is a well-formed JSON body without the `data` key, so
`data["data"]` raises an uncaught `KeyError`; `reqError` is any
`requests.RequestException` — a non-success status raised by
`raise_for_status`, a network failure, or an undecodable body
(`requests` raises its `JSONDecodeError`, a `RequestException`).
The rate-limit sleep has no observable effect in this model.
-/

/-- Outcome of fetching one page. -/
inductive FetchResult where
  | ok (data : List PyVal)
  | noDataKey
  | reqError

/-- Result of the extraction loop: `returned` carries the accumulated
entries, the number of page requests issued, the progress-log entries
(page number, running total) and the pages whose request error was
logged; `raised` is an uncaught `KeyError` escaping to the caller. -/
inductive ExtractOutcome where
  | returned (anime : List PyVal) (reqs : Nat) (logs : List (Nat × Nat)) (errs : List Nat)
  | raised (reqs : Nat) (logs : List (Nat × Nat)) (errs : List Nat)

/-- Requests issued, on either outcome. -/
def ExtractOutcome.reqsOf : ExtractOutcome → Nat
  | .returned _ r _ _ => r
  | .raised r _ _ => r

/-- The `while True` loop of `extract_all_anime`. `gas` stands for
`max_pages - page`, so the loop test `page >= max_pages` of the source
is exactly `gas = 0` and the recursion is structural; `page` is carried
along unchanged so that the oracle is consulted at the Python page
number. One iteration: fetch the page; a `RequestException` is caught,
logged and breaks the loop; a missing `data` key raises; an empty data
list breaks; otherwise the entries are appended, the loop breaks if the
page cap is reached, and else the page counter advances and the progress
line `Extracted page {page - 1}, Total anime: {len(all_anime)}` is
logged. -/
def extractGo (fetch : Nat → FetchResult) : Nat → Nat → List PyVal →
    List (Nat × Nat) → List Nat → Nat → ExtractOutcome
  | gas, page, acc, logs, errs, reqs =>
    match fetch page with
    | .reqError => .returned acc (reqs + 1) logs (errs ++ [page])
    | .noDataKey => .raised (reqs + 1) logs errs
    | .ok [] => .returned acc (reqs + 1) logs errs
    | .ok (e :: es) =>
      let acc2 := acc ++ e :: es
      match gas with
      | 0 => .returned acc2 (reqs + 1) logs errs
      | g + 1 =>
        extractGo fetch g (page + 1) acc2 (logs ++ [(page, acc2.length)]) errs (reqs + 1)

/-- `JikanDataExtractor.extract_all_anime` for a configured
`max_pages = maxPages`: the loop starts at page 1 with an empty
accumulator, so the initial gas is `maxPages - 1`. -/
def extract_all_anime (fetch : Nat → FetchResult) (maxPages : Nat) : ExtractOutcome :=
  extractGo fetch (maxPages - 1) 1 [] [] [] 0

/-- Whether a fetched page has a nonempty data list (a page the loop
completes by appending its entries). -/
def hasData : FetchResult → Bool
  | .ok (_ :: _) => true
  | _ => false

/-- The data list of a fetch outcome, empty for the non-`ok` cases. -/
def pageData : FetchResult → List PyVal
  | .ok l => l
  | _ => []

/-- Concatenation of the data of `count` consecutive pages starting at
`start` — the accumulator contents after fetching those pages. -/
def concatPages (fetch : Nat → FetchResult) (start count : Nat) : List PyVal :=
  match count with
  | 0 => []
  | c + 1 => pageData (fetch start) ++ concatPages fetch (start + 1) c

/-- The progress-log entries for `count` consecutive completed pages
starting at `start`, when `base` entries were already accumulated:
each page is logged with its number and the running total. -/
def logsSeq (fetch : Nat → FetchResult) (base start : Nat) : Nat → List (Nat × Nat)
  | 0 => []
  | c + 1 =>
    (start, base + (pageData (fetch start)).length) ::
      logsSeq fetch (base + (pageData (fetch start)).length) (start + 1) c

/-- A two-page catalog used in concrete checks below. -/
def sampleEntry : PyVal := PyVal.dict [("mal_id", PyVal.int 1)]

example :
    extract_all_anime (fun p => if p = 1 then .ok [sampleEntry] else .ok []) 10
      = .returned [sampleEntry] 2 [(1, 1)] [] := rfl
example :
    extract_all_anime (fun _ => FetchResult.ok [sampleEntry]) 2
      = .returned [sampleEntry, sampleEntry] 2 [(1, 1)] [] := rfl
example :
    extract_all_anime (fun p => if p = 1 then .ok [sampleEntry] else .noDataKey) 10
      = .raised 2 [(1, 1)] [] := rfl
example :
    extract_all_anime (fun p => if p = 1 then .ok [sampleEntry] else .reqError) 10
      = .returned [sampleEntry] 2 [(1, 1)] [2] := rfl
example :
    extract_all_anime (fun _ => FetchResult.ok [sampleEntry]) 1
      = .returned [sampleEntry] 1 [] [] := rfl

/-- The error-log entry produced for page `p`: a request failure logs
`Error extracting anime on page {page}` once. -/
def errLogOf (fetch : Nat → FetchResult) (p : Nat) : List Nat :=
  match fetch p with
  | .reqError => [p]
  | _ => []

theorem hasData_eq_true {r : FetchResult} (h : hasData r = true) :
    ∃ e es, r = .ok (e :: es) := by
  cases r with
  | ok l =>
    cases l with
    | nil => simp [hasData] at h
    | cons e es => exact ⟨e, es, rfl⟩
  | noDataKey => simp [hasData] at h
  | reqError => simp [hasData] at h

theorem extractGo_reqs_le (fetch : Nat → FetchResult) :
    ∀ gas page acc logs errs reqs,
      (extractGo fetch gas page acc logs errs reqs).reqsOf ≤ reqs + gas + 1 := by
  intro gas
  induction gas with
  | zero =>
    intro page acc logs errs reqs
    unfold extractGo
    cases h : fetch page with
    | ok l => cases l <;> simp [ExtractOutcome.reqsOf]
    | noDataKey => simp [ExtractOutcome.reqsOf]
    | reqError => simp [ExtractOutcome.reqsOf]
  | succ g ih =>
    intro page acc logs errs reqs
    unfold extractGo
    cases h : fetch page with
    | ok l =>
      cases l with
      | nil => simp [ExtractOutcome.reqsOf]
      | cons e es =>
        have h2 := ih (page + 1) (acc ++ e :: es)
          (logs ++ [(page, (acc ++ e :: es).length)]) errs (reqs + 1)
        simpa using Nat.le_trans h2 (by omega)
    | noDataKey => simp [ExtractOutcome.reqsOf]
    | reqError => simp [ExtractOutcome.reqsOf]

theorem extractGo_returned_char (fetch : Nat → FetchResult) :
    ∀ gas page acc logs errs reqs anime reqs2 logs2 errs2,
      extractGo fetch gas page acc logs errs reqs
        = .returned anime reqs2 logs2 errs2 →
      ∃ k, 1 ≤ k ∧
        reqs2 = reqs + k ∧
        anime = acc ++ concatPages fetch page k ∧
        logs2 = logs ++ logsSeq fetch acc.length page (k - 1) ∧
        errs2 = errs ++ errLogOf fetch (page + (k - 1)) ∧
        (∀ q, page ≤ q → q < page + (k - 1) → hasData (fetch q) = true) := by
  intro gas
  induction gas with
  | zero =>
    intro page acc logs errs reqs anime reqs2 logs2 errs2 h
    unfold extractGo at h
    cases hf : fetch page with
    | ok l =>
      rw [hf] at h
      cases l with
      | nil =>
        injection h with h1 h2 h3 h4
        refine ⟨1, le_refl 1, by omega, ?_, ?_, ?_, ?_⟩
        · simp [← h1, concatPages, pageData, hf]
        · simp [← h3, logsSeq]
        · simp [← h4, errLogOf, hf]
        · intro q hq1 hq2; omega
      | cons e es =>
        injection h with h1 h2 h3 h4
        refine ⟨1, le_refl 1, by omega, ?_, ?_, ?_, ?_⟩
        · simp [← h1, concatPages, pageData, hf]
        · simp [← h3, logsSeq]
        · simp [← h4, errLogOf, hf]
        · intro q hq1 hq2; omega
    | noDataKey => rw [hf] at h; exact absurd h (by simp)
    | reqError =>
      rw [hf] at h
      injection h with h1 h2 h3 h4
      refine ⟨1, le_refl 1, by omega, ?_, ?_, ?_, ?_⟩
      · simp [← h1, concatPages, pageData, hf]
      · simp [← h3, logsSeq]
      · simp [← h4, errLogOf, hf]
      · intro q hq1 hq2; omega
  | succ g ih =>
    intro page acc logs errs reqs anime reqs2 logs2 errs2 h
    unfold extractGo at h
    cases hf : fetch page with
    | ok l =>
      rw [hf] at h
      cases l with
      | nil =>
        injection h with h1 h2 h3 h4
        refine ⟨1, le_refl 1, by omega, ?_, ?_, ?_, ?_⟩
        · simp [← h1, concatPages, pageData, hf]
        · simp [← h3, logsSeq]
        · simp [← h4, errLogOf, hf]
        · intro q hq1 hq2; omega
      | cons e es =>
        simp only [] at h
        obtain ⟨k, hk, hr, ha, hl, he, hd⟩ :=
          ih (page + 1) (acc ++ e :: es) (logs ++ [(page, (acc ++ e :: es).length)])
            errs (reqs + 1) anime reqs2 logs2 errs2 h
        obtain ⟨j, rfl⟩ : ∃ j, k = j + 1 := ⟨k - 1, by omega⟩
        simp only [Nat.add_sub_cancel] at hl he hd
        refine ⟨j + 2, by omega, by omega, ?_, ?_, ?_, ?_⟩
        · have hcp : concatPages fetch page (j + 2)
              = pageData (fetch page) ++ concatPages fetch (page + 1) (j + 1) := rfl
          rw [ha, hcp, hf]
          simp [pageData]
        · have hls : logsSeq fetch acc.length page (j + 2 - 1)
              = (page, acc.length + (pageData (fetch page)).length) ::
                  logsSeq fetch (acc.length + (pageData (fetch page)).length)
                    (page + 1) j := rfl
          rw [hl, hls, hf]
          simp [pageData]
        · rw [he]
          have harith : page + 1 + j = page + (j + 2 - 1) := by omega
          rw [harith]
        · intro q hq1 hq2
          rcases Nat.eq_or_lt_of_le hq1 with hq | hq
          · rw [← hq]; simp [hasData, hf]
          · exact hd q (by omega) (by omega)
    | noDataKey => rw [hf] at h; exact absurd h (by simp)
    | reqError =>
      rw [hf] at h
      injection h with h1 h2 h3 h4
      refine ⟨1, le_refl 1, by omega, ?_, ?_, ?_, ?_⟩
      · simp [← h1, concatPages, pageData, hf]
      · simp [← h3, logsSeq]
      · simp [← h4, errLogOf, hf]
      · intro q hq1 hq2; omega

theorem extractGo_stops (fetch : Nat → FetchResult) (p : Nat)
    (hp : fetch p = .ok [] ∨ fetch p = .reqError) :
    ∀ d gas page acc logs errs reqs, page + d = p → d ≤ gas →
      (∀ q, page ≤ q → q < p → hasData (fetch q) = true) →
      extractGo fetch gas page acc logs errs reqs
        = .returned (acc ++ concatPages fetch page (d + 1)) (reqs + d + 1)
            (logs ++ logsSeq fetch acc.length page d) (errs ++ errLogOf fetch p) := by
  intro d
  induction d with
  | zero =>
    intro gas page acc logs errs reqs hpage hgas hprev
    have hpp : page = p := by omega
    subst hpp
    unfold extractGo
    rcases hp with h | h <;> rw [h] <;>
      simp [concatPages, pageData, h, logsSeq, errLogOf]
  | succ d2 ihd =>
    intro gas page acc logs errs reqs hpage hgas hprev
    have hpd : hasData (fetch page) = true := hprev page (le_refl page) (by omega)
    obtain ⟨e, es, hf⟩ := hasData_eq_true hpd
    obtain ⟨g, rfl⟩ : ∃ g, gas = g + 1 := ⟨gas - 1, by omega⟩
    have hrec := ihd g (page + 1) (acc ++ e :: es)
      (logs ++ [(page, (acc ++ e :: es).length)]) errs (reqs + 1)
      (by omega) (by omega) (fun q hq1 hq2 => hprev q (by omega) hq2)
    unfold extractGo
    rw [hf]
    show extractGo fetch g (page + 1) (acc ++ e :: es)
        (logs ++ [(page, (acc ++ e :: es).length)]) errs (reqs + 1) = _
    rw [hrec]
    have hA : acc ++ e :: es ++ concatPages fetch (page + 1) (d2 + 1)
        = acc ++ concatPages fetch page (d2 + 1 + 1) := by
      have hcp : concatPages fetch page (d2 + 1 + 1)
          = pageData (fetch page) ++ concatPages fetch (page + 1) (d2 + 1) := rfl
      rw [hcp, hf]
      simp [pageData]
    have hC : logs ++ [(page, (acc ++ e :: es).length)]
          ++ logsSeq fetch (acc ++ e :: es).length (page + 1) d2
        = logs ++ logsSeq fetch acc.length page (d2 + 1) := by
      have hls : logsSeq fetch acc.length page (d2 + 1)
          = (page, acc.length + (pageData (fetch page)).length) ::
              logsSeq fetch (acc.length + (pageData (fetch page)).length)
                (page + 1) d2 := rfl
      rw [hls, hf]
      simp [pageData]
    rw [hA, hC]
    congr 1
    omega

/-- A catalog with one nonempty page: page 1 has a single entry, every
later page is empty. -/
def onePageCatalog : Nat → FetchResult :=
  fun p => if p = 1 then .ok [sampleEntry] else .ok []

/-- A catalog whose second response is a well-formed JSON body without
the `data` key. -/
def missingDataKeyCatalog : Nat → FetchResult :=
  fun p => if p = 1 then .ok [sampleEntry] else .noDataKey

/-- A catalog where every page is nonempty, so extraction can only stop
at the `max_pages` cap. -/
def alwaysFullCatalog : Nat → FetchResult := fun _ => FetchResult.ok [sampleEntry]

/-- C1: for every configured `max_pages = N ≥ 1`, `extract_all_anime`
issues at most `N` page requests; if the pages before `p ≤ N` are all
nonempty and page `p` comes back with an empty data list, pagination
stops with exactly `p` requests — no later page is requested; and the
returned sequence is the concatenation of the data of every requested
page (the entries of all nonempty pages fetched before stopping). -/
theorem extract_respects_cap_and_empty_stop (fetch : Nat → FetchResult) (N : Nat)
    (hN : 1 ≤ N) :
    (extract_all_anime fetch N).reqsOf ≤ N ∧
    (∀ p, 1 ≤ p → p ≤ N →
      (∀ q, 1 ≤ q → q < p → hasData (fetch q) = true) →
      fetch p = .ok [] →
      (extract_all_anime fetch N).reqsOf = p) ∧
    (∀ anime reqs logs errs,
      extract_all_anime fetch N = .returned anime reqs logs errs →
      anime = concatPages fetch 1 reqs) := by
  refine ⟨?_, ?_, ?_⟩
  · have hb := extractGo_reqs_le fetch (N - 1) 1 [] [] [] 0
    unfold extract_all_anime
    omega
  · intro p h1 h2 h3 h4
    have h := extractGo_stops fetch p (Or.inl h4) (p - 1) (N - 1) 1 [] [] [] 0
      (by omega) (by omega) h3
    unfold extract_all_anime
    rw [h]
    simp [ExtractOutcome.reqsOf]
    omega
  · intro anime reqs logs errs h
    obtain ⟨k, hk, hr, ha, hl, he, hd⟩ :=
      extractGo_returned_char fetch (N - 1) 1 [] [] [] 0 anime reqs logs errs h
    have hkr : k = reqs := by omega
    subst hkr
    simpa using ha

/-- Witness for C1 on a concrete two-page catalog: page 1 is nonempty,
page 2 is empty, the cap is 2, and exactly 2 requests are issued. -/
theorem extract_respects_cap_and_empty_stop_wit :
    (extract_all_anime onePageCatalog 2).reqsOf = 2 :=
  (extract_respects_cap_and_empty_stop onePageCatalog 2 (by decide)).2.1 2
    (by decide) (le_refl 2)
    (fun q hq1 hq2 => by
      have hq : q = 1 := by omega
      subst hq
      rfl)
    rfl

/-- C4 counterexample: a JSON body without the `data` key is not a
caught terminal condition — `data["data"]` raises `KeyError`, so
`extract_all_anime` raises to the caller instead of returning the
entry accumulated from page 1 (and no error is logged). -/
theorem extract_raises_on_missing_data_key :
    extract_all_anime missingDataKeyCatalog 10 = .raised 2 [(1, 1)] [] := rfl

/-- C4 as amended: only `requests.RequestException` failures (non-success
HTTP status, network failure, undecodable body) are terminal-and-caught.
If the pages before `p ≤ N` are nonempty and the request for page `p`
fails that way, the error is logged for page `p`, pagination stops with
`p` requests, and the entries accumulated from the earlier pages are
returned. A well-formed JSON body lacking the `data` key instead raises
`KeyError` (see the counterexample). -/
theorem extract_partial_on_request_error (fetch : Nat → FetchResult) (N p : Nat)
    (h1 : 1 ≤ p) (h2 : p ≤ N)
    (h3 : ∀ q, 1 ≤ q → q < p → hasData (fetch q) = true)
    (h4 : fetch p = .reqError) :
    extract_all_anime fetch N
      = .returned (concatPages fetch 1 p) p (logsSeq fetch 0 1 (p - 1)) [p] := by
  have h := extractGo_stops fetch p (Or.inr h4) (p - 1) (N - 1) 1 [] [] [] 0
    (by omega) (by omega) h3
  unfold extract_all_anime
  rw [h]
  simp only [List.nil_append, List.length_nil]
  have hp1 : p - 1 + 1 = p := by omega
  have hp2 : 0 + (p - 1) + 1 = p := by omega
  rw [hp1, hp2]
  simp [errLogOf, h4]

/-- Witness for C4 as amended: page 1 succeeds with one entry, the
request for page 2 fails; extraction returns that entry, two requests,
one progress log and one error log. -/
theorem extract_partial_on_request_error_wit :
    extract_all_anime (fun p => if p = 1 then .ok [sampleEntry] else .reqError) 10
      = .returned
          (concatPages (fun p => if p = 1 then .ok [sampleEntry] else .reqError) 1 2) 2
          (logsSeq (fun p => if p = 1 then .ok [sampleEntry] else .reqError) 0 1 (2 - 1))
          [2] :=
  extract_partial_on_request_error _ 10 2 (by decide) (by decide)
    (fun q hq1 hq2 => by
      have hq : q = 1 := by omega
      subst hq
      rfl)
    rfl

/-- C8 counterexample: with `max_pages = 1` page 1 is completed (its
entry is appended to the accumulator and returned), yet the progress
log list is empty — the log statement sits after the cap check, so the
final page fetched before the cap stop is never logged. -/
theorem final_capped_page_not_logged :
    hasData (alwaysFullCatalog 1) = true ∧
    extract_all_anime alwaysFullCatalog 1 = .returned [sampleEntry] 1 [] [] :=
  ⟨rfl, rfl⟩

/-- C8 as amended: on a returned extraction every requested page except
the last is a completed page and is logged exactly once, in order, with
its page number and the running entry total (`logsSeq`); the final
requested page is never logged, even when it was completed (cap stop). -/
theorem extract_logs_all_but_last_page (fetch : Nat → FetchResult) (N : Nat)
    (anime : List PyVal) (reqs : Nat) (logs : List (Nat × Nat)) (errs : List Nat)
    (h : extract_all_anime fetch N = .returned anime reqs logs errs) :
    logs = logsSeq fetch 0 1 (reqs - 1) ∧
    (∀ q, 1 ≤ q → q < reqs → hasData (fetch q) = true) := by
  obtain ⟨k, hk, hr, ha, hl, he, hd⟩ :=
    extractGo_returned_char fetch (N - 1) 1 [] [] [] 0 anime reqs logs errs h
  have hkr : k = reqs := by omega
  subst hkr
  constructor
  · simpa using hl
  · intro q hq1 hq2
    exact hd q hq1 (by omega)

/-- Witness for C8 as amended, on the one-nonempty-page catalog with
two requests: the single log entry is page 1 with running total 1. -/
theorem extract_logs_all_but_last_page_wit :
    ([(1, 1)] : List (Nat × Nat)) = logsSeq onePageCatalog 0 1 (2 - 1) :=
  (extract_logs_all_but_last_page onePageCatalog 10 [sampleEntry] 2 [(1, 1)] [] rfl).1

/-!
Transformer model (`JikanDataExtractor.preprocess_anime_data`, etl.py
lines 77-150). The pandas DataFrame is a column list plus rows given as
association lists; a key missing from a row is a NaN cell and reads as
`PyVal.none`. Column selection `df[columns_to_keep]` checks that every
requested column exists (otherwise pandas raises `KeyError`), and the
selected copy is modelled as a list of 16-field records: the 12 kept
columns plus the four derived columns, the latter initialised to
`PyVal.none` standing for "column not present yet". Each subsequent
statement of the source is one whole-column pass over the rows, in
source order; a pass whose per-cell lambda can raise is a fail-fast
traversal (`mapME`).
-/

/-- The pandas DataFrame handed between the pipeline stages. -/
structure DataFrame where
  cols : List String
  rows : List (List (String × PyVal))

/-- The keys of a raw entry (a non-dict entry contributes none). -/
def dictKeys : PyVal → List String
  | .dict fs => fs.map (fun f => f.1)
  | _ => []

/-- Append the keys not seen yet, preserving first-appearance order. -/
def addNewKeys (acc ks : List String) : List String :=
  ks.foldl (fun a k => if k ∈ a then a else a ++ [k]) acc

/-- Model of `pd.DataFrame(all_anime)` (etl.py line 74): the columns are
the union of the entries' keys in first-appearance order, each row keeps
its own fields and a missing key is a NaN cell. In particular
`toDataFrame [] = ⟨[], []⟩`: no entries means no columns. -/
def toDataFrame (entries : List PyVal) : DataFrame :=
  { cols := entries.foldl (fun a e => addNewKeys a (dictKeys e)) []
  , rows := entries.map (fun e =>
      match e with
      | .dict fs => fs
      | _ => []) }

/-- The fixed projection `columns_to_keep` (etl.py lines 86-99). -/
def columns_to_keep : List String :=
  ["mal_id", "url", "title", "title_english", "type", "episodes",
   "status", "aired", "rating", "score", "genres", "themes"]

/-- A row of `processed_df`: the 12 selected columns plus the four
derived columns added later in the function (initialised to `none`
until their assignment statement runs). -/
structure PRow where
  mal_id : PyVal
  url : PyVal
  title : PyVal
  title_english : PyVal
  type : PyVal
  episodes : PyVal
  status : PyVal
  aired : PyVal
  rating : PyVal
  score : PyVal
  genres : PyVal
  themes : PyVal
  start_date : PyVal
  end_date : PyVal
  genre_names : PyVal
  theme_names : PyVal

/-- A row of the returned frame, after
`drop(columns=["aired", "genres", "themes"])`. -/
structure OutRow where
  mal_id : PyVal
  url : PyVal
  title : PyVal
  title_english : PyVal
  type : PyVal
  episodes : PyVal
  status : PyVal
  rating : PyVal
  score : PyVal
  start_date : PyVal
  end_date : PyVal
  genre_names : PyVal
  theme_names : PyVal

/-- One selected row of `df[columns_to_keep].copy()`. -/
def selectRow (r : List (String × PyVal)) : PRow :=
  { mal_id := cell r "mal_id"
  , url := cell r "url"
  , title := cell r "title"
  , title_english := cell r "title_english"
  , type := cell r "type"
  , episodes := cell r "episodes"
  , status := cell r "status"
  , aired := cell r "aired"
  , rating := cell r "rating"
  , score := cell r "score"
  , genres := cell r "genres"
  , themes := cell r "themes"
  , start_date := PyVal.none
  , end_date := PyVal.none
  , genre_names := PyVal.none
  , theme_names := PyVal.none }

/-- Model of `df[columns_to_keep].copy()` (etl.py line 102): pandas
raises `KeyError` when any requested column is absent from the frame;
otherwise a fresh copy of the selected columns is produced. -/
def selectColumns (df : DataFrame) : Except String (List PRow) :=
  if columns_to_keep.all (fun c => df.cols.contains c) then
    .ok (df.rows.map selectRow)
  else
    .error "KeyError"

/-- Fail-fast traversal: the per-element function of a pandas `apply`
raises out of the whole pass at the first failing element. -/
def mapME (f : α → Except String β) : List α → Except String (List β)
  | [] => .ok []
  | a :: as =>
    match f a with
    | .error e => .error e
    | .ok b =>
      match mapME f as with
      | .error e => .error e
      | .ok bs => .ok (b :: bs)

/-- `processed_df["episodes"].fillna(0)` (etl.py line 105): a NaN/null
cell becomes 0. -/
def fillEpisodes (r : PRow) : PRow :=
  { r with episodes :=
      match r.episodes with
      | .none => PyVal.int 0
      | v => v }

/-- The date assignment (etl.py lines 127-129): the two derived columns
receive the pair computed by `process_dates` from the `aired` cell. -/
def setDates (r : PRow) : PRow :=
  { r with
      start_date := (process_dates r.aired).1
    , end_date := (process_dates r.aired).2 }

/-- `genre["name"]` on one element of a `genres`/`themes` list: a dict
without the key raises `KeyError`, a non-dict element raises
`TypeError`. -/
def getName (g : PyVal) : Except String PyVal :=
  match g with
  | .dict fs =>
    match fs.lookup "name" with
    | some v => .ok v
    | Option.none => .error "KeyError"
  | _ => .error "TypeError"

/-- The name-extraction lambda (etl.py lines 132-137):
`[genre["name"] for genre in x] if isinstance(x, list) else []`. -/
def extract_names (x : PyVal) : Except String (List PyVal) :=
  match x with
  | .list xs => mapME getName xs
  | _ => .ok []

/-- A joined element must be a string, otherwise `str.join` raises
`TypeError`. -/
def asString : PyVal → Except String String
  | .str s => .ok s
  | _ => .error "TypeError"

/-- The join lambda (etl.py lines 140-145):
`", ".join(x) if x else ""`. -/
def join_names (v : PyVal) : Except String PyVal :=
  match v with
  | .list [] => .ok (.str "")
  | .list xs => (mapME asString xs).map (fun ss => .str (String.intercalate ", " ss))
  | w => if truthy w then .error "TypeError" else .ok (.str "")

/-- The `genre_names` extraction pass over the whole column. -/
def genrePass (rows : List PRow) : Except String (List PRow) :=
  mapME (fun r => (extract_names r.genres).map
    (fun ns => { r with genre_names := .list ns })) rows

/-- The `theme_names` extraction pass over the whole column. -/
def themePass (rows : List PRow) : Except String (List PRow) :=
  mapME (fun r => (extract_names r.themes).map
    (fun ns => { r with theme_names := .list ns })) rows

/-- The `genre_names` join pass over the whole column. -/
def genreJoinPass (rows : List PRow) : Except String (List PRow) :=
  mapME (fun r => (join_names r.genre_names).map
    (fun v => { r with genre_names := v })) rows

/-- The `theme_names` join pass over the whole column. -/
def themeJoinPass (rows : List PRow) : Except String (List PRow) :=
  mapME (fun r => (join_names r.theme_names).map
    (fun v => { r with theme_names := v })) rows

/-- `processed_df.drop(columns=["aired", "genres", "themes"])` on one
row: only the scalar and derived columns remain. -/
def dropRaw (r : PRow) : OutRow :=
  { mal_id := r.mal_id
  , url := r.url
  , title := r.title
  , title_english := r.title_english
  , type := r.type
  , episodes := r.episodes
  , status := r.status
  , rating := r.rating
  , score := r.score
  , start_date := r.start_date
  , end_date := r.end_date
  , genre_names := r.genre_names
  , theme_names := r.theme_names }

/-- `preprocess_anime_data` traced together with the final contents of
the caller's input object. `df[columns_to_keep].copy()` allocates a
fresh frame, so every later statement — the column assignments and the
`inplace=True` drop — mutates only the copy; the first component is the
input object when the call finishes (on success or on a raise). -/
def preprocessSteps (df : DataFrame) : DataFrame × Except String (List OutRow) :=
  match selectColumns df with
  | .error e => (df, .error e)
  | .ok rows0 =>
    let rows1 := rows0.map fillEpisodes
    let rows2 := rows1.map setDates
    match genrePass rows2 with
    | .error e => (df, .error e)
    | .ok rows3 =>
      match themePass rows3 with
      | .error e => (df, .error e)
      | .ok rows4 =>
        match genreJoinPass rows4 with
        | .error e => (df, .error e)
        | .ok rows5 =>
          match themeJoinPass rows5 with
          | .error e => (df, .error e)
          | .ok rows6 => (df, .ok (rows6.map dropRaw))

/-- `JikanDataExtractor.preprocess_anime_data` (etl.py lines 77-150):
the value returned to the caller (or the exception escaping to it). -/
def preprocess_anime_data (df : DataFrame) : Except String (List OutRow) :=
  (preprocessSteps df).2

example : toDataFrame [] = ⟨[], []⟩ := rfl
example : preprocess_anime_data ⟨[], []⟩ = .error "KeyError" := rfl
example :
    preprocess_anime_data
      ⟨columns_to_keep,
       [[("mal_id", PyVal.int 5),
         ("episodes", PyVal.none),
         ("aired", PyVal.dict [("from", PyVal.str "2020-01-01")]),
         ("genres", PyVal.list [PyVal.dict [("name", PyVal.str "Action")],
                                PyVal.dict [("name", PyVal.str "Comedy")]]),
         ("themes", PyVal.list [])]]⟩
      = .ok [{ mal_id := PyVal.int 5
             , url := PyVal.none
             , title := PyVal.none
             , title_english := PyVal.none
             , type := PyVal.none
             , episodes := PyVal.int 0
             , status := PyVal.none
             , rating := PyVal.none
             , score := PyVal.none
             , start_date := PyVal.date 2020 1 1
             , end_date := PyVal.str "Ongoing"
             , genre_names := PyVal.str "Action, Comedy"
             , theme_names := PyVal.str "" }] := rfl

theorem ite_dateOrElse (v : PyVal) (a : PyVal) :
    (if truthy v then dateOrElse v a else a) = dateOrElse v a := by
  by_cases ht : truthy v = true
  · rw [if_pos ht]
  · have hf : truthy v = false := by
      cases h2 : truthy v
      · rfl
      · exact absurd h2 ht
    rw [if_neg (by simp [hf])]
    unfold dateOrElse
    rw [parseDate_of_not_truthy hf]

/-- C2: date derivation. A date-range value that is not a structured
dict yields absent start and end dates; for a dict, `start_date` is the
parsed date of the `from` field when it parses and `None` otherwise
(parse failures are swallowed), while `end_date` is the parsed date of
the `to` field when it parses and the literal `"Ongoing"` when `to` is
absent or unparseable; and the two concrete examples of the spec hold. -/
theorem process_dates_spec (aired : PyVal) :
    ((∀ fs, aired ≠ PyVal.dict fs) → process_dates aired = (PyVal.none, PyVal.none)) ∧
    (∀ fs, aired = PyVal.dict fs →
      process_dates aired
        = (dateOrElse (cell fs "from") PyVal.none,
           dateOrElse (cell fs "to") (PyVal.str "Ongoing"))) ∧
    process_dates (PyVal.dict [("from", PyVal.str "2020-01-01"),
                               ("to", PyVal.str "2020-06-01")])
      = (PyVal.date 2020 1 1, PyVal.date 2020 6 1) ∧
    process_dates (PyVal.dict [("from", PyVal.str "2020-01-01")])
      = (PyVal.date 2020 1 1, PyVal.str "Ongoing") := by
  refine ⟨?_, ?_, rfl, rfl⟩
  · intro h
    cases aired with
    | dict fs => exact absurd rfl (h fs)
    | none => rfl
    | str s => rfl
    | int n => rfl
    | date y m d => rfl
    | list xs => rfl
  · rintro fs rfl
    simp only [process_dates]
    rw [ite_dateOrElse, ite_dateOrElse]

/-- Witness for C2 at a concrete date-range dict with a `from` field and
no `to` field. -/
theorem process_dates_spec_wit :
    process_dates (PyVal.dict [("from", PyVal.str "2020-01-01")])
      = (dateOrElse (cell [("from", PyVal.str "2020-01-01")] "from") PyVal.none,
         dateOrElse (cell [("from", PyVal.str "2020-01-01")] "to")
           (PyVal.str "Ongoing")) :=
  (process_dates_spec (PyVal.dict [("from", PyVal.str "2020-01-01")])).2.1 _ rfl

/-- C9: the transformer builds new records instead of editing in place —
after `preprocess_anime_data` runs (successfully or not), the caller's
input frame is unchanged, with all original columns and values (the
nested `aired`, `genres` and `themes` cells included) still present. -/
theorem preprocess_preserves_input (df : DataFrame) :
    (preprocessSteps df).1 = df := by
  unfold preprocessSteps
  split
  · rfl
  · dsimp only
    repeat' split
    all_goals rfl

/-- C10: when extraction collects zero entries (an empty first page, or
a failing first request), `pd.DataFrame([])` has no columns at all, so
the selection `df[columns_to_keep]` inside `preprocess_anime_data`
raises `KeyError` instead of producing an empty output sequence. -/
theorem preprocess_empty_extraction_raises :
    toDataFrame [] = ⟨[], []⟩ ∧
    extract_all_anime (fun _ => FetchResult.ok []) 10 = .returned [] 1 [] [] ∧
    extract_all_anime (fun _ => FetchResult.reqError) 10 = .returned [] 1 [] [1] ∧
    preprocess_anime_data (toDataFrame []) = .error "KeyError" :=
  ⟨rfl, rfl, rfl, rfl⟩

/-- A well-formed element of a `genres`/`themes` list: a dict whose
`name` field is a string, so that `genre["name"]` succeeds and
`", ".join` accepts the value. -/
def nameOk : PyVal → Bool
  | .dict fs =>
    match fs.lookup "name" with
    | some (.str _) => true
    | _ => false
  | _ => false

/-- A well-formed `genres`/`themes` cell: either not a list (the source
maps it to `[]`) or a list of well-formed name dicts. -/
def namesOk : PyVal → Bool
  | .list xs => xs.all nameOk
  | _ => true

/-- The value `genre["name"]` reads from a name dict (the default is
never used on well-formed input). -/
def nameValOf : PyVal → PyVal
  | .dict fs => cell fs "name"
  | _ => PyVal.none

/-- The name list produced by the extraction lambda on input it does not
raise on. -/
def extractedNames : PyVal → List PyVal
  | .list xs => xs.map nameValOf
  | _ => []

/-- The string content of a name value (total companion of `asString`
on well-formed input). -/
def toStr : PyVal → String
  | .str s => s
  | _ => ""

/-- The joined string the join lambda produces on a list of strings. -/
def joinedStr (v : PyVal) : PyVal :=
  match v with
  | .list ns => .str (String.intercalate ", " (ns.map toStr))
  | _ => .str ""

theorem mapME_ok_of {α β : Type} (f : α → Except String β) (g : α → β)
    (l : List α) (h : ∀ a ∈ l, f a = .ok (g a)) :
    mapME f l = .ok (l.map g) := by
  induction l with
  | nil => rfl
  | cons a as ih =>
    unfold mapME
    rw [h a (List.mem_cons_self a as), ih (fun x hx => h x (List.mem_cons_of_mem a hx))]
    rfl

theorem nameOk_cases {g : PyVal} (h : nameOk g = true) :
    ∃ fs s, g = PyVal.dict fs ∧ fs.lookup "name" = some (PyVal.str s) := by
  cases g with
  | dict fs =>
    simp only [nameOk] at h
    cases hl : fs.lookup "name" with
    | none => rw [hl] at h; exact Bool.noConfusion h
    | some v2 =>
      rw [hl] at h
      cases v2 with
      | str s => exact ⟨fs, s, rfl, hl⟩
      | none => exact Bool.noConfusion h
      | int n => exact Bool.noConfusion h
      | date y m d => exact Bool.noConfusion h
      | list xs => exact Bool.noConfusion h
      | dict fs2 => exact Bool.noConfusion h
  | none => exact Bool.noConfusion h
  | str s => exact Bool.noConfusion h
  | int n => exact Bool.noConfusion h
  | date y m d => exact Bool.noConfusion h
  | list xs => exact Bool.noConfusion h

theorem getName_ok {g : PyVal} (h : nameOk g = true) :
    getName g = .ok (nameValOf g) := by
  obtain ⟨fs, s, rfl, hl⟩ := nameOk_cases h
  simp only [getName, nameValOf]
  rw [hl]
  simp [cell, hl]

theorem extract_names_ok {v : PyVal} (h : namesOk v = true) :
    extract_names v = .ok (extractedNames v) := by
  cases v with
  | list xs =>
    unfold extract_names extractedNames
    apply mapME_ok_of
    intro g hg
    apply getName_ok
    unfold namesOk at h
    rw [List.all_eq_true] at h
    exact h g hg
  | none => rfl
  | str s => rfl
  | int n => rfl
  | date y m d => rfl
  | dict fs => rfl

theorem extractedNames_strings {v : PyVal} (h : namesOk v = true) :
    ∀ n ∈ extractedNames v, ∃ s, n = PyVal.str s := by
  cases v with
  | list xs =>
    intro n hn
    unfold extractedNames at hn
    rw [List.mem_map] at hn
    obtain ⟨g, hg, rfl⟩ := hn
    have hgok : nameOk g = true := by
      unfold namesOk at h
      rw [List.all_eq_true] at h
      exact h g hg
    obtain ⟨fs, s, rfl, hl⟩ := nameOk_cases hgok
    exact ⟨s, by simp [nameValOf, cell, hl]⟩
  | none => intro n hn; exact absurd hn (by simp [extractedNames])
  | str s => intro n hn; exact absurd hn (by simp [extractedNames])
  | int n2 => intro n hn; exact absurd hn (by simp [extractedNames])
  | date y m d => intro n hn; exact absurd hn (by simp [extractedNames])
  | dict fs => intro n hn; exact absurd hn (by simp [extractedNames])

theorem join_names_ok {ns : List PyVal} (h : ∀ n ∈ ns, ∃ s, n = PyVal.str s) :
    join_names (PyVal.list ns) = .ok (joinedStr (PyVal.list ns)) := by
  cases ns with
  | nil => rfl
  | cons n ns2 =>
    have hm : mapME asString (n :: ns2) = .ok ((n :: ns2).map toStr) := by
      apply mapME_ok_of
      intro a ha
      obtain ⟨s, rfl⟩ := h a ha
      rfl
    show (mapME asString (n :: ns2)).map
        (fun ss => PyVal.str (String.intercalate ", " ss))
      = Except.ok (joinedStr (PyVal.list (n :: ns2)))
    rw [hm]
    rfl

/-- The prepared row before the name passes: selection, episode fill
and date assignment composed. -/
def prepRow (r : List (String × PyVal)) : PRow :=
  setDates (fillEpisodes (selectRow r))

/-- Canonical effect of the `genre_names` extraction pass on a row it
does not raise on. -/
def withGenreLists (p : PRow) : PRow :=
  { p with genre_names := PyVal.list (extractedNames p.genres) }

/-- Canonical effect of the `theme_names` extraction pass on a row it
does not raise on. -/
def withThemeLists (p : PRow) : PRow :=
  { p with theme_names := PyVal.list (extractedNames p.themes) }

/-- Canonical effect of the `genre_names` join pass on a row it does
not raise on. -/
def withGenreJoined (p : PRow) : PRow :=
  { p with genre_names := joinedStr p.genre_names }

/-- Canonical effect of the `theme_names` join pass on a row it does
not raise on. -/
def withThemeJoined (p : PRow) : PRow :=
  { p with theme_names := joinedStr p.theme_names }

/-- A frame carrying every projected column whose single row has a
`genres` list containing a dict without a `name` key. -/
def malformedGenresFrame : DataFrame :=
  ⟨columns_to_keep, [[("genres", PyVal.list [PyVal.dict []])]]⟩

/-- C7 counterexample: the transformer is not total on entries carrying
the fixed projected fields. On a one-row frame whose `genres` value is
a list holding a dict without a `name` key, `genre["name"]` raises
`KeyError` out of `preprocess_anime_data`, so no output record is
produced for the entry and no output sequence exists at all. -/
theorem preprocess_raises_on_malformed_genre :
    malformedGenresFrame.rows.length = 1 ∧
    preprocess_anime_data malformedGenresFrame = .error "KeyError" ∧
    ¬ ∃ out, preprocess_anime_data malformedGenresFrame = .ok out := by
  refine ⟨rfl, rfl, ?_⟩
  rintro ⟨out, hout⟩
  rw [show preprocess_anime_data malformedGenresFrame = .error "KeyError" from rfl]
    at hout
  exact Except.noConfusion hout

/-- C7 as amended: the transformer is total — one output record per
input entry and `len(output) = len(input)` — provided every projected
column is present in the frame and, additionally, every `genres` and
`themes` cell that is a list holds only dicts whose `name` field is a
string (otherwise the name extraction or the join raises, see the
counterexample). -/
theorem preprocess_total_on_wellformed (df : DataFrame)
    (hcols : columns_to_keep.all (fun c => df.cols.contains c) = true)
    (hok : ∀ r ∈ df.rows, namesOk (cell r "genres") = true ∧
                          namesOk (cell r "themes") = true) :
    ∃ out, preprocess_anime_data df = .ok out ∧ out.length = df.rows.length := by
  have hsel : selectColumns df = .ok (df.rows.map selectRow) := by
    simp only [selectColumns]
    rw [if_pos (by simpa using hcols)]
  have hmaps : ((df.rows.map selectRow).map fillEpisodes).map setDates
      = df.rows.map prepRow := by
    simp only [List.map_map]
    rfl
  have hgen : genrePass (df.rows.map prepRow)
      = .ok (df.rows.map (fun r => withGenreLists (prepRow r))) := by
    have h1 : genrePass (df.rows.map prepRow)
        = .ok ((df.rows.map prepRow).map withGenreLists) := by
      apply mapME_ok_of
      intro p hp
      rw [List.mem_map] at hp
      obtain ⟨r, hr, rfl⟩ := hp
      have hg : (prepRow r).genres = cell r "genres" := rfl
      rw [show extract_names (prepRow r).genres
            = .ok (extractedNames (prepRow r).genres) from
          extract_names_ok (by rw [hg]; exact (hok r hr).1)]
      rfl
    rw [h1, List.map_map]
    rfl
  have hthm : themePass (df.rows.map (fun r => withGenreLists (prepRow r)))
      = .ok (df.rows.map (fun r => withThemeLists (withGenreLists (prepRow r)))) := by
    have h1 : themePass (df.rows.map (fun r => withGenreLists (prepRow r)))
        = .ok ((df.rows.map (fun r => withGenreLists (prepRow r))).map withThemeLists) := by
      apply mapME_ok_of
      intro p hp
      rw [List.mem_map] at hp
      obtain ⟨r, hr, rfl⟩ := hp
      have hg : (withGenreLists (prepRow r)).themes = cell r "themes" := rfl
      rw [show extract_names (withGenreLists (prepRow r)).themes
            = .ok (extractedNames (withGenreLists (prepRow r)).themes) from
          extract_names_ok (by rw [hg]; exact (hok r hr).2)]
      rfl
    rw [h1, List.map_map]
    rfl
  have hjg : genreJoinPass
        (df.rows.map (fun r => withThemeLists (withGenreLists (prepRow r))))
      = .ok (df.rows.map
          (fun r => withGenreJoined (withThemeLists (withGenreLists (prepRow r))))) := by
    have h1 : genreJoinPass
          (df.rows.map (fun r => withThemeLists (withGenreLists (prepRow r))))
        = .ok ((df.rows.map (fun r => withThemeLists (withGenreLists (prepRow r)))).map
            withGenreJoined) := by
      apply mapME_ok_of
      intro p hp
      rw [List.mem_map] at hp
      obtain ⟨r, hr, rfl⟩ := hp
      have hg : (withThemeLists (withGenreLists (prepRow r))).genre_names
          = PyVal.list (extractedNames (cell r "genres")) := rfl
      rw [show join_names (withThemeLists (withGenreLists (prepRow r))).genre_names
            = .ok (joinedStr (withThemeLists (withGenreLists (prepRow r))).genre_names) from by
          rw [hg]
          exact join_names_ok (extractedNames_strings (hok r hr).1)]
      rfl
    rw [h1, List.map_map]
    rfl
  have hjt : themeJoinPass
        (df.rows.map
          (fun r => withGenreJoined (withThemeLists (withGenreLists (prepRow r)))))
      = .ok (df.rows.map
          (fun r => withThemeJoined
            (withGenreJoined (withThemeLists (withGenreLists (prepRow r)))))) := by
    have h1 : themeJoinPass
          (df.rows.map
            (fun r => withGenreJoined (withThemeLists (withGenreLists (prepRow r)))))
        = .ok ((df.rows.map
            (fun r => withGenreJoined (withThemeLists (withGenreLists (prepRow r))))).map
              withThemeJoined) := by
      apply mapME_ok_of
      intro p hp
      rw [List.mem_map] at hp
      obtain ⟨r, hr, rfl⟩ := hp
      have hg : (withGenreJoined (withThemeLists (withGenreLists (prepRow r)))).theme_names
          = PyVal.list (extractedNames (cell r "themes")) := rfl
      rw [show join_names
              (withGenreJoined (withThemeLists (withGenreLists (prepRow r)))).theme_names
            = .ok (joinedStr
              (withGenreJoined (withThemeLists (withGenreLists (prepRow r)))).theme_names) from by
          rw [hg]
          exact join_names_ok (extractedNames_strings (hok r hr).2)]
      rfl
    rw [h1, List.map_map]
    rfl
  refine ⟨(df.rows.map
      (fun r => withThemeJoined
        (withGenreJoined (withThemeLists (withGenreLists (prepRow r)))))).map dropRaw,
    ?_, by simp⟩
  unfold preprocess_anime_data preprocessSteps
  rw [hsel]
  dsimp only
  rw [hmaps, hgen]
  dsimp only
  rw [hthm]
  dsimp only
  rw [hjg]
  dsimp only
  rw [hjt]

/-- A frame with one fully well-formed row, used as the concrete
witness input for the amended totality claim. -/
def wellFormedFrame : DataFrame :=
  ⟨columns_to_keep,
   [[("mal_id", PyVal.int 5),
     ("episodes", PyVal.none),
     ("aired", PyVal.dict [("from", PyVal.str "2020-01-01")]),
     ("genres", PyVal.list [PyVal.dict [("name", PyVal.str "Action")],
                            PyVal.dict [("name", PyVal.str "Comedy")]]),
     ("themes", PyVal.list [])]]⟩

/-- Witness for the amended C7 at a concrete one-row frame. -/
theorem preprocess_total_on_wellformed_wit :
    ∃ out, preprocess_anime_data wellFormedFrame = .ok out ∧
      out.length = wellFormedFrame.rows.length :=
  preprocess_total_on_wellformed wellFormedFrame rfl
    (fun r hr => by
      simp only [wellFormedFrame, List.mem_singleton] at hr
      subst hr
      exact ⟨rfl, rfl⟩)

/-!
Loader model (`JikanDataExtractor.load_to_postgres`, etl.py lines
152-231). A record handed to the batch insert is the tuple built from a
processed row, keyed by `mal_id` (an `INTEGER PRIMARY KEY` column,
modelled as `Int`) followed by the remaining column values. The table
is the committed list of rows in insertion order. The statement
`INSERT ... ON CONFLICT (mal_id) DO UPDATE SET ...` overwrites every
non-key column with the incoming (`EXCLUDED`) value, so on conflict the
whole stored row becomes the incoming record; `executemany` applies the
records left to right, and `conn.commit()` publishes the result
atomically. The `try/except/finally` control flow is modelled
explicitly, with a failure-injection parameter naming the first
database call that raises (or `none` for a clean run).
-/

/-- One record of the batch: the `mal_id` key and the other column
values of the tuple, in column order. -/
structure LoadRec where
  key : Int
  vals : List PyVal

/-- The single-record effect of the upsert statement: if a stored row
has the same key, every such row is overwritten by the incoming record
(all non-key columns are set from `EXCLUDED`, and the key is equal);
otherwise the record is appended as a new row. -/
def upsert (t : List LoadRec) (r : LoadRec) : List LoadRec :=
  if t.any (fun x => x.key = r.key) then
    t.map (fun x => if x.key = r.key then r else x)
  else
    t ++ [r]

/-- `cur.executemany(insert_query, data_to_insert)` followed by
`conn.commit()`: apply the upsert for each record, left to right. -/
def load_rows (t : List LoadRec) (rs : List LoadRec) : List LoadRec :=
  rs.foldl upsert t

/-- The database calls of the loader body, in source order. -/
inductive LoadStep where
  | connect
  | cursor
  | createTable
  | execMany
  | commit
deriving DecidableEq

/-- The exception observable from a loader call: the original database
error of a step, or the `UnboundLocalError`/`NameError` raised by the
cleanup code itself. -/
inductive PyErr where
  | db (s : LoadStep)
  | nameErr
deriving DecidableEq

/-- State of the `try` body when it finishes or is interrupted:
which locals got bound, the committed table, the success log, and the
step whose exception interrupted the body (if any). -/
structure BodyRun where
  connBound : Bool
  curBound : Bool
  table : Option (List LoadRec)
  loggedOk : Option Nat
  err : Option LoadStep

/-- The `try` body of `load_to_postgres` under failure injection `fail`
against a database whose `anime` table is `db` (`none` when the table
does not exist yet). The committed table changes only when
`conn.commit()` is reached: work done by `CREATE TABLE IF NOT EXISTS`
and the batch insert is rolled back when the connection terminates
without a commit, so on any body failure the visible table is the
original `db`. On the clean path the table is created when absent and
every record is upserted, and the success line
`Successfully loaded {len(df)} records to anime table` is logged. -/
def runBody (fail : Option LoadStep) (db : Option (List LoadRec))
    (rs : List LoadRec) : BodyRun :=
  if fail = some .connect then
    { connBound := false, curBound := false, table := db
    , loggedOk := Option.none, err := some .connect }
  else if fail = some .cursor then
    { connBound := true, curBound := false, table := db
    , loggedOk := Option.none, err := some .cursor }
  else if fail = some .createTable then
    { connBound := true, curBound := true, table := db
    , loggedOk := Option.none, err := some .createTable }
  else if fail = some .execMany then
    { connBound := true, curBound := true, table := db
    , loggedOk := Option.none, err := some .execMany }
  else if fail = some .commit then
    { connBound := true, curBound := true, table := db
    , loggedOk := Option.none, err := some .commit }
  else
    { connBound := true, curBound := true
    , table := some (load_rows (db.getD []) rs)
    , loggedOk := some rs.length, err := Option.none }

/-- Everything observable from one `load_to_postgres` call. -/
structure LoadOutcome where
  table : Option (List LoadRec)
  retVal : Option PyVal
  raisedErr : Option PyErr
  loggedErr : Bool
  loggedOk : Option Nat
  connOpened : Bool
  connClosed : Bool
  curClosed : Bool

/-- `JikanDataExtractor.load_to_postgres`: run the body; the `except`
clause logs any database error and re-raises it; then the `finally`
clause runs `if conn: cur.close(); conn.close()`. When `conn` was never
assigned (the `psycopg2.connect` call itself raised), evaluating
`if conn` raises `UnboundLocalError`, which replaces the re-raised
database error and closes nothing; when `conn` is bound but `cur` is
not (the `conn.cursor()` call raised), `cur.close()` raises
`UnboundLocalError` and `conn.close()` is never reached. Only when both
locals are bound are both resources released, and a body error (if any)
propagates unchanged. On a clean run the function returns `None` — it
has no return statement. -/
def load_to_postgres (fail : Option LoadStep) (db : Option (List LoadRec))
    (rs : List LoadRec) : LoadOutcome :=
  let b := runBody fail db rs
  let flowErr : Option PyErr := b.err.map PyErr.db
  if b.connBound = false then
    { table := b.table, retVal := Option.none, raisedErr := some PyErr.nameErr
    , loggedErr := b.err.isSome, loggedOk := b.loggedOk
    , connOpened := false, connClosed := false, curClosed := false }
  else if b.curBound = false then
    { table := b.table, retVal := Option.none, raisedErr := some PyErr.nameErr
    , loggedErr := b.err.isSome, loggedOk := b.loggedOk
    , connOpened := true, connClosed := false, curClosed := false }
  else
    { table := b.table
    , retVal := if flowErr.isSome then Option.none else some PyVal.none
    , raisedErr := flowErr
    , loggedErr := b.err.isSome, loggedOk := b.loggedOk
    , connOpened := true, connClosed := true, curClosed := true }

example :
    (load_to_postgres Option.none Option.none [⟨1, []⟩, ⟨2, []⟩]).table
      = some [⟨1, []⟩, ⟨2, []⟩] := rfl
example :
    (load_to_postgres Option.none (some [⟨1, [PyVal.int 7]⟩]) [⟨1, [PyVal.int 9]⟩]).table
      = some [⟨1, [PyVal.int 9]⟩] := rfl
example :
    (load_to_postgres (some .commit) (some []) [⟨1, []⟩]).table = some [] := rfl

/-- The last record of `rs` with key `k` — the value the batch leaves
at that key. -/
def lastWith (k : Int) : List LoadRec → Option LoadRec
  | [] => Option.none
  | r :: rs =>
    match lastWith k rs with
    | some w => some w
    | Option.none => if r.key = k then some r else Option.none

/-- The keys of the stored rows, in order. -/
def keysOf (t : List LoadRec) : List Int := t.map (fun x => x.key)

/-- The rows a batch appends to a table whose key list is `tks`: one
row per first occurrence of a fresh key, holding the last record with
that key. -/
def appendedRecs (tks : List Int) : List LoadRec → List LoadRec
  | [] => []
  | r :: rs =>
    if r.key ∈ tks then appendedRecs tks rs
    else ((lastWith r.key rs).getD r) :: appendedRecs (r.key :: tks) rs


theorem lastWith_cons (k : Int) (r : LoadRec) (rs : List LoadRec) :
    lastWith k (r :: rs)
      = match lastWith k rs with
        | some w => some w
        | Option.none => if r.key = k then some r else Option.none := rfl

theorem lastWith_cons_some {k : Int} {r : LoadRec} {rs : List LoadRec}
    {w : LoadRec} (hw : lastWith k rs = some w) :
    lastWith k (r :: rs) = some w := by
  rw [lastWith_cons, hw]

theorem lastWith_cons_none {k : Int} {r : LoadRec} {rs : List LoadRec}
    (hw : lastWith k rs = Option.none) :
    lastWith k (r :: rs) = if r.key = k then some r else Option.none := by
  rw [lastWith_cons, hw]

theorem appendedRecs_cons (tks : List Int) (r : LoadRec) (rs : List LoadRec) :
    appendedRecs tks (r :: rs)
      = if r.key ∈ tks then appendedRecs tks rs
        else ((lastWith r.key rs).getD r) :: appendedRecs (r.key :: tks) rs := rfl

theorem lastWith_key : ∀ (rs : List LoadRec) (k : Int) (w : LoadRec),
    lastWith k rs = some w → w.key = k := by
  intro rs
  induction rs with
  | nil => intro k w h; exact Option.noConfusion h
  | cons r rs ih =>
    intro k w h
    rw [lastWith_cons] at h
    cases hw : lastWith k rs with
    | some w2 =>
      rw [hw] at h
      injection h with h2
      rw [← h2]
      exact ih k w2 hw
    | none =>
      rw [hw] at h
      by_cases hk : r.key = k
      · rw [if_pos hk] at h
        injection h with h2
        rw [← h2]
        exact hk
      · rw [if_neg hk] at h
        exact Option.noConfusion h

theorem appendedRecs_congr : ∀ (rs : List LoadRec) (tks1 tks2 : List Int),
    (∀ k, k ∈ tks1 ↔ k ∈ tks2) →
    appendedRecs tks1 rs = appendedRecs tks2 rs := by
  intro rs
  induction rs with
  | nil => intro tks1 tks2 h; rfl
  | cons r rs ih =>
    intro tks1 tks2 h
    rw [appendedRecs_cons, appendedRecs_cons]
    by_cases hm : r.key ∈ tks1
    · rw [if_pos hm, if_pos ((h r.key).mp hm)]
      exact ih tks1 tks2 h
    · rw [if_neg hm, if_neg (fun hc => hm ((h r.key).mpr hc))]
      rw [ih (r.key :: tks1) (r.key :: tks2)
        (fun k => by simp only [List.mem_cons]; rw [h k])]

theorem keysOf_replace (t : List LoadRec) (r : LoadRec) :
    keysOf (t.map (fun x => if x.key = r.key then r else x)) = keysOf t := by
  unfold keysOf
  rw [List.map_map]
  apply List.map_congr_left
  intro x hx
  by_cases hk : x.key = r.key
  · simp [hk]
  · simp [hk]

theorem any_key_iff (t : List LoadRec) (r : LoadRec) :
    (t.any (fun x => x.key = r.key)) = true ↔ r.key ∈ keysOf t := by
  rw [List.any_eq_true]
  constructor
  · rintro ⟨x, hx, hk⟩
    rw [decide_eq_true_eq] at hk
    exact hk ▸ List.mem_map.mpr ⟨x, hx, rfl⟩
  · intro h
    obtain ⟨x, hx, hk⟩ := List.mem_map.mp h
    exact ⟨x, hx, by rw [decide_eq_true_eq, hk]⟩

theorem load_rows_eq : ∀ (rs : List LoadRec) (t : List LoadRec),
    load_rows t rs
      = t.map (fun x => (lastWith x.key rs).getD x) ++ appendedRecs (keysOf t) rs := by
  intro rs
  induction rs with
  | nil =>
    intro t
    show t = t.map (fun x => (lastWith x.key []).getD x) ++ appendedRecs (keysOf t) []
    simp [lastWith, appendedRecs]
  | cons r rs ih =>
    intro t
    show load_rows (upsert t r) rs = _
    rw [ih (upsert t r)]
    unfold upsert
    by_cases hany : (t.any (fun x => x.key = r.key)) = true
    · rw [if_pos hany]
      have hmem : r.key ∈ keysOf t := (any_key_iff t r).mp hany
      have hmap : (t.map (fun x => if x.key = r.key then r else x)).map
            (fun x => (lastWith x.key rs).getD x)
          = t.map (fun x => (lastWith x.key (r :: rs)).getD x) := by
        rw [List.map_map]
        apply List.map_congr_left
        intro x hx
        simp only [Function.comp_apply]
        by_cases hk : x.key = r.key
        · rw [if_pos hk, hk]
          cases hw : lastWith r.key rs with
          | some w => rw [lastWith_cons_some hw]; rfl
          | none => rw [lastWith_cons_none hw, if_pos rfl]; rfl
        · rw [if_neg hk]
          cases hw : lastWith x.key rs with
          | some w => rw [lastWith_cons_some hw]
          | none =>
            rw [lastWith_cons_none hw, if_neg (fun hc => hk hc.symm)]
      rw [hmap, keysOf_replace]
      rw [appendedRecs_cons, if_pos hmem]
    · rw [if_neg hany]
      have hmem : r.key ∉ keysOf t := fun hc => hany ((any_key_iff t r).mpr hc)
      rw [List.map_append]
      have hkeys : keysOf (t ++ [r]) = keysOf t ++ [r.key] := by
        simp [keysOf]
      rw [hkeys]
      rw [appendedRecs_congr rs (keysOf t ++ [r.key]) (r.key :: keysOf t)
        (fun k => by
          simp only [List.mem_append, List.mem_cons, List.mem_singleton]
          tauto)]
      have hmap2 : t.map (fun x => (lastWith x.key rs).getD x)
          = t.map (fun x => (lastWith x.key (r :: rs)).getD x) := by
        apply List.map_congr_left
        intro x hx
        have hk : x.key ≠ r.key := fun hc =>
          hmem (hc ▸ List.mem_map.mpr ⟨x, hx, rfl⟩)
        cases hw : lastWith x.key rs with
        | some w => rw [lastWith_cons_some hw]
        | none =>
          rw [lastWith_cons_none hw, if_neg (fun hc => hk hc.symm)]
      rw [hmap2]
      rw [appendedRecs_cons, if_neg hmem]
      simp

theorem mem_keysOf_upsert (t : List LoadRec) (r : LoadRec) :
    r.key ∈ keysOf (upsert t r) ∧
    ∀ k, k ∈ keysOf t → k ∈ keysOf (upsert t r) := by
  unfold upsert
  by_cases hany : (t.any (fun x => x.key = r.key)) = true
  · rw [if_pos hany, keysOf_replace]
    exact ⟨(any_key_iff t r).mp hany, fun k hk => hk⟩
  · rw [if_neg hany]
    have hkeys : keysOf (t ++ [r]) = keysOf t ++ [r.key] := by simp [keysOf]
    rw [hkeys]
    constructor
    · simp
    · intro k hk
      simp [hk]

theorem keysOf_load_rows_superset : ∀ (rs : List LoadRec) (t : List LoadRec)
    (k : Int), k ∈ keysOf t → k ∈ keysOf (load_rows t rs) := by
  intro rs
  induction rs with
  | nil => intro t k hk; exact hk
  | cons r rs ih =>
    intro t k hk
    exact ih (upsert t r) k ((mem_keysOf_upsert t r).2 k hk)

theorem keysOf_load_rows_mem : ∀ (rs : List LoadRec) (t : List LoadRec)
    (r : LoadRec), r ∈ rs → r.key ∈ keysOf (load_rows t rs) := by
  intro rs
  induction rs with
  | nil => intro t r hr; exact absurd hr (List.not_mem_nil r)
  | cons a rs ih =>
    intro t r hr
    rcases List.mem_cons.mp hr with hr1 | hr2
    · subst hr1
      exact keysOf_load_rows_superset rs (upsert t r) r.key (mem_keysOf_upsert t r).1
    · exact ih (upsert t a) r hr2

theorem appendedRecs_nil_of_covered : ∀ (rs : List LoadRec) (tks : List Int),
    (∀ r ∈ rs, r.key ∈ tks) → appendedRecs tks rs = [] := by
  intro rs
  induction rs with
  | nil => intro tks h; rfl
  | cons r rs ih =>
    intro tks h
    rw [appendedRecs_cons, if_pos (h r (List.mem_cons_self r rs))]
    exact ih tks (fun x hx => h x (List.mem_cons_of_mem r hx))

theorem appendedRecs_last : ∀ (rs : List LoadRec) (tks : List Int)
    (x : LoadRec), x ∈ appendedRecs tks rs → lastWith x.key rs = some x := by
  intro rs
  induction rs with
  | nil => intro tks x hx; exact absurd hx (List.not_mem_nil x)
  | cons r rs ih =>
    intro tks x hx
    rw [appendedRecs_cons] at hx
    by_cases hm : r.key ∈ tks
    · rw [if_pos hm] at hx
      exact lastWith_cons_some (ih tks x hx)
    · rw [if_neg hm] at hx
      rcases List.mem_cons.mp hx with hx1 | hx2
      · subst hx1
        cases hw : lastWith r.key rs with
        | some w =>
          show lastWith w.key (r :: rs) = some w
          rw [lastWith_key rs r.key w hw]
          exact lastWith_cons_some hw
        | none =>
          show lastWith r.key (r :: rs) = some r
          rw [lastWith_cons_none hw, if_pos rfl]
      · exact lastWith_cons_some (ih (r.key :: tks) x hx2)

theorem load_rows_idem (t rs : List LoadRec) :
    load_rows (load_rows t rs) rs = load_rows t rs := by
  rw [load_rows_eq rs (load_rows t rs)]
  rw [appendedRecs_nil_of_covered rs _
    (fun r hr => keysOf_load_rows_mem rs t r hr)]
  rw [List.append_nil]
  have hfix : ∀ x ∈ load_rows t rs, (lastWith x.key rs).getD x = x := by
    intro x hx
    rw [load_rows_eq rs t] at hx
    rcases List.mem_append.mp hx with hx1 | hx2
    · rw [List.mem_map] at hx1
      obtain ⟨x0, hx0, rfl⟩ := hx1
      cases hw : lastWith x0.key rs with
      | none =>
        show (lastWith x0.key rs).getD x0 = x0
        rw [hw]
        rfl
      | some w =>
        show (lastWith w.key rs).getD w = w
        rw [lastWith_key rs x0.key w hw, hw]
        rfl
    · rw [appendedRecs_last rs (keysOf t) x hx2]
      rfl
  calc (load_rows t rs).map (fun x => (lastWith x.key rs).getD x)
      = (load_rows t rs).map (fun x => x) := List.map_congr_left hfix
    _ = load_rows t rs := List.map_id' (load_rows t rs)

/-- C3: the loader is idempotent on identical record sets. The batch is
an upsert keyed on `mal_id` in which a conflict overwrites every
non-key column with the incoming value, so running `load_to_postgres`
a second time with the same records leaves the committed table exactly
as after the first run. -/
theorem load_idempotent (db : Option (List LoadRec)) (rs : List LoadRec) :
    (load_to_postgres Option.none (load_to_postgres Option.none db rs).table rs).table
      = (load_to_postgres Option.none db rs).table := by
  have h1 : (load_to_postgres Option.none db rs).table
      = some (load_rows (db.getD []) rs) := rfl
  rw [h1]
  have h2 : (load_to_postgres Option.none
        (some (load_rows (db.getD []) rs)) rs).table
      = some (load_rows (load_rows (db.getD []) rs) rs) := rfl
  rw [h2, load_rows_idem]

/-- C5 counterexample: a successful call with two records returns Python
`None`, which is not the record count 2 — the loader has no return
statement; the count appears only in the success log. -/
theorem load_returns_none_not_count :
    (load_to_postgres Option.none (some []) [⟨1, []⟩, ⟨2, []⟩]).retVal
        = some PyVal.none ∧
    some PyVal.none ≠ some (PyVal.int 2) ∧
    (load_to_postgres Option.none (some []) [⟨1, []⟩, ⟨2, []⟩]).loggedOk = some 2 := by
  refine ⟨rfl, ?_, rfl⟩
  intro h
  injection h with h2
  exact PyVal.noConfusion h2

/-- C5 as amended: on every successful call the loader logs the number
of records processed — the length of the input record sequence — in the
success line, raises nothing, and returns `None`; the count is not
returned to the caller. -/
theorem load_logs_count_returns_none (db : Option (List LoadRec))
    (rs : List LoadRec) :
    (load_to_postgres Option.none db rs).retVal = some PyVal.none ∧
    (load_to_postgres Option.none db rs).loggedOk = some rs.length ∧
    (load_to_postgres Option.none db rs).raisedErr = Option.none :=
  ⟨rfl, rfl, rfl⟩

/-- C6: release-and-re-raise holds on the statement paths but not on the
connection paths. A table-creation or batch-statement failure closes
both resources, is logged, and re-raises the original database error.
But when `psycopg2.connect` itself fails, `conn` was never assigned, so
the cleanup `if conn:` raises `UnboundLocalError`, which replaces the
original error; and when `conn.cursor()` fails, `cur.close()` raises
`UnboundLocalError` and the opened connection is never closed. -/
theorem load_cleanup_bug :
    ((load_to_postgres (some .connect) (some []) []).raisedErr
        = some PyErr.nameErr ∧
     (load_to_postgres (some .connect) (some []) []).loggedErr = true) ∧
    ((load_to_postgres (some .cursor) (some []) []).raisedErr
        = some PyErr.nameErr ∧
     (load_to_postgres (some .cursor) (some []) []).connOpened = true ∧
     (load_to_postgres (some .cursor) (some []) []).connClosed = false) ∧
    ((load_to_postgres (some .createTable) (some []) []).raisedErr
        = some (PyErr.db .createTable) ∧
     (load_to_postgres (some .createTable) (some []) []).connClosed = true ∧
     (load_to_postgres (some .createTable) (some []) []).curClosed = true) ∧
    ((load_to_postgres (some .execMany) (some []) []).raisedErr
        = some (PyErr.db .execMany) ∧
     (load_to_postgres (some .execMany) (some []) []).connClosed = true) ∧
    some PyErr.nameErr ≠ some (PyErr.db .connect) := by
  refine ⟨⟨rfl, rfl⟩, ⟨rfl, rfl, rfl⟩, ⟨rfl, rfl, rfl⟩, ⟨rfl, rfl⟩, ?_⟩
  intro h
  injection h with h2
  exact PyErr.noConfusion h2
